import Mathlib

/-!
Verification of the promcat core (`src/promcat/core.py`): line numbering,
section formatting, text/binary classification, ignore-pattern matching,
file collection, and directory-tree rendering.

Strings are embedded as `List Char` (Python `str` is a sequence of code
points); file bytes as `List Nat`.  Functions are translated from
`core.py`; the gitignore-style matcher used through the third-party
`pathspec` library is modelled from the specification's §4.1 rules.
-/

namespace Promcat

/-- The characters of a string literal. -/
def chars (s : String) : List Char := s.data

/-- The line boundaries of Python `str.splitlines()`: `\n`, `\r`
(with `\r\n` counted once), `\v`, `\f`, the file/group/record
separators `\x1c`-`\x1e`, next line `\x85`, and the Unicode line and
paragraph separators `\u2028`/`\u2029`. -/
def isLineBreak (c : Char) : Bool :=
  c = '\n' || c = '\r' || c = '\x0b' || c = '\x0c' || c = '\x1c' ||
    c = '\x1d' || c = '\x1e' || c = '\x85' || c = '\u2028' || c = '\u2029'

/-- Auxiliary scanner for `splitlines`: Python `str.splitlines()` splits at
every `isLineBreak` character (`\r\n` counting as a single break), keeps
no line-break characters, and produces no final empty line for trailing
line breaks.  `acc` holds the current (reversed) line. -/
def splitlinesAux : List Char → List Char → List (List Char)
  | [], acc => if acc.isEmpty then [] else [acc.reverse]
  | '\r' :: '\n' :: rest, acc => acc.reverse :: splitlinesAux rest []
  | c :: rest, acc =>
    if isLineBreak c then acc.reverse :: splitlinesAux rest []
    else splitlinesAux rest (c :: acc)

/-- Python `content.splitlines()`. -/
def splitlines (cs : List Char) : List (List Char) := splitlinesAux cs []

/-- Naive split on `'\n'` (used to state what "final empty segment" means:
a trailing newline produces a final empty piece here, which `splitlines`
does not report). -/
def splitOnNlAux : List Char → List Char → List (List Char)
  | [], acc => [acc.reverse]
  | '\n' :: rest, acc => acc.reverse :: splitOnNlAux rest []
  | c :: rest, acc => splitOnNlAux rest (c :: acc)

/-- All `'\n'`-separated pieces of a character list, trailing empty piece
included. -/
def splitOnNl (cs : List Char) : List (List Char) := splitOnNlAux cs []

/-- Python `"\n".join(lines)` generalised to any separator. -/
def joinSep (s : List Char) : List (List Char) → List Char
  | [] => []
  | [a] => a
  | a :: b :: rest => a ++ s ++ joinSep s (b :: rest)

/-- Python `str(n)` for a natural number. -/
def natChars (n : Nat) : List Char := Nat.toDigits 10 n

/-- Python `s.rjust(width)`: left-pad with spaces up to `width`. -/
def rjust (s : List Char) (width : Nat) : List Char :=
  List.replicate (width - s.length) ' ' ++ s

/-- Embeds `core.add_line_numbers`: prefix every line of `content` with its 1-based
line number right-justified to the width of the total line count, followed
by `separator`; empty content is returned unchanged. -/
def add_line_numbers (content : List Char) (separator : List Char) : List Char :=
  if content = [] then content
  else
    let lines := splitlines content
    let padding := (natChars lines.length).length
    let numbered_lines :=
      lines.enum.map fun p => rjust (natChars (p.1 + 1)) padding ++ separator ++ p.2
    joinSep (chars "\n") numbered_lines

/-- The default line-number separator of `core.add_line_numbers`. -/
def defaultNumberSeparator : List Char := chars " | "

/-- Embeds `core.HeaderStyle`. -/
inductive HeaderStyle where
  | newline
  | separator
  | markdown
  | xml
deriving DecidableEq

/-- Embeds `core.format_file_section`: wrap a file's (optionally numbered) content
in the envelope of the chosen header style. -/
def format_file_section (path content : List Char) (style : HeaderStyle)
    (include_footer : Bool) (line_numbers : Bool)
    (number_separator : List Char) : List Char :=
  let formatted_content :=
    if line_numbers then add_line_numbers content number_separator else content
  match style with
  | .newline => chars "\n\n" ++ formatted_content
  | .separator =>
    let header :=
      chars "\n=== " ++ (if include_footer then chars "start " else []) ++
        path ++ chars " ===\n"
    let footer :=
      if include_footer then chars "\n=== end " ++ path ++ chars " ===\n" else []
    header ++ formatted_content ++ footer
  | .markdown =>
    if (chars ".py").isSuffixOf path then
      let header :=
        chars "\n# " ++ (if include_footer then chars "start " else []) ++
          path ++ chars "\n"
      let footer :=
        if include_footer then chars "\n# end " ++ path ++ chars "\n" else []
      header ++ formatted_content ++ footer
    else
      let header :=
        chars "\n## " ++ (if include_footer then chars "start " else []) ++
          path ++ chars "\n"
      let footer :=
        if include_footer then chars "\n## end " ++ path ++ chars "\n" else []
      header ++ formatted_content ++ footer
  | .xml =>
    chars "\n<file>\n<path>" ++ path ++ chars "</path>\n<content>\n" ++
      formatted_content ++ chars "\n</content>\n</file>"

/-- Embeds `core.is_text_file`: the file's readable bytes, or `none` when opening
or reading raises `IOError`.  Samples the first 1024 bytes and reports text
iff no null byte occurs in the sample; an unreadable file reports `false`. -/
def is_text_file (file : Option (List Nat)) : Bool :=
  match file with
  | some bytes => !((bytes.take 1024).contains 0)
  | none => false

/-- A glob token of one path-segment pattern. -/
inductive Tok where
  | star
  | qmark
  | lit (c : Char)
  | cls (negated : Bool) (ranges : List (Char × Char))
deriving DecidableEq

/-- Modelled from the spec: bracket-class parsing of the `pathspec`
gitwildmatch dialect (§4.1, "bracket classes `[...]` are supported").
Collects the members (as closed ranges) up to the closing `]`; a leading
`!`/`^` negates, and a `]` immediately after it is a literal member.
Returns `none` for an unterminated class (then `[` is taken literally). -/
def parseClassItems : List Char → List (Char × Char) → Option (List (Char × Char) × List Char)
  | [], _ => none
  | ']' :: rest, acc => some (acc.reverse, rest)
  | a :: '-' :: ']' :: rest, acc => some ((('-', '-') :: (a, a) :: acc).reverse, rest)
  | a :: '-' :: b :: rest, acc => parseClassItems rest ((a, b) :: acc)
  | a :: rest, acc => parseClassItems rest ((a, a) :: acc)

/-- Modelled from the spec: parse the interior of a bracket class,
returning its negation flag, ranges, and the remaining pattern text. -/
def parseClass (cs : List Char) : Option (Bool × List (Char × Char) × List Char) :=
  let p : Bool × List Char :=
    match cs with
    | '!' :: rest => (true, rest)
    | '^' :: rest => (true, rest)
    | _ => (false, cs)
  match p.2 with
  | ']' :: rest2 =>
    match parseClassItems rest2 [(']', ']')] with
    | some (rs, rest3) => some (p.1, rs, rest3)
    | none => none
  | other =>
    match parseClassItems other [] with
    | some (rs, rest3) => some (p.1, rs, rest3)
    | none => none

/-- Does character `c` satisfy the (possibly negated) bracket class? -/
def inClass (negated : Bool) (ranges : List (Char × Char)) (c : Char) : Bool :=
  let m := ranges.any fun r => decide (r.1 ≤ c) && decide (c ≤ r.2)
  if negated then !m else m

/-- Modelled from the spec: tokenize one path-segment glob (wildcards `*`,
`?`, bracket classes, literals).  `fuel` only bounds the recursion and is
always called with `fuel ≥ cs.length`, which every step preserves since at
least one character is consumed. -/
def tokenize : Nat → List Char → List Tok
  | 0, _ => []
  | _ + 1, [] => []
  | fuel + 1, '*' :: rest => .star :: tokenize fuel rest
  | fuel + 1, '?' :: rest => .qmark :: tokenize fuel rest
  | fuel + 1, '[' :: rest =>
    match parseClass rest with
    | some (neg, rs, rest2) => .cls neg rs :: tokenize fuel rest2
    | none => .lit '[' :: tokenize fuel rest
  | fuel + 1, c :: rest => .lit c :: tokenize fuel rest

/-- Modelled from the spec: match a tokenized glob against one path
segment; `*` and `?` never cross a `/` boundary because matching is
per-segment. -/
def globMatch : List Tok → List Char → Bool
  | [], s => s.isEmpty
  | .star :: ps, s => s.tails.any fun t => globMatch ps t
  | .qmark :: ps, s =>
    match s with
    | [] => false
    | _ :: rest => globMatch ps rest
  | .lit a :: ps, s =>
    match s with
    | [] => false
    | c :: rest => a = c && globMatch ps rest
  | .cls neg rs :: ps, s =>
    match s with
    | [] => false
    | c :: rest => inClass neg rs c && globMatch ps rest

/-- One pattern segment: either the cross-directory `**` or a
single-segment glob. -/
inductive GSeg where
  | dstar
  | glob (toks : List Tok)
deriving DecidableEq

/-- Modelled from the spec: match a sequence of pattern segments against a
sequence of path segments; `**` may span any number of segments
(including zero), every other segment matches exactly one path segment. -/
def segsMatch : List GSeg → List String → Bool
  | [], segs => segs.isEmpty
  | .dstar :: ps, segs => segs.tails.any fun t => segsMatch ps t
  | .glob toks :: ps, segs =>
    match segs with
    | [] => false
    | s :: rest => globMatch toks s.data && segsMatch ps rest

/-- Modelled from the spec: one parsed ignore rule (§3 "Pattern"): raw
glob segments plus the derived `negated`, `anchored` and `directory_only`
flags. -/
structure GPattern where
  negated : Bool
  anchored : Bool
  dirOnly : Bool
  segs : List GSeg
deriving DecidableEq

/-- Split raw pattern text on `/`. -/
def splitSlash : List Char → List (List Char) :=
  fun cs => go cs []
where
  /-- accumulate the current (reversed) segment. -/
  go : List Char → List Char → List (List Char)
    | [], acc => [acc.reverse]
    | '/' :: rest, acc => acc.reverse :: go rest []
    | c :: rest, acc => go rest (c :: acc)

/-- Compile one raw pattern segment. -/
def compileSeg (cs : List Char) : GSeg :=
  if cs = ['*', '*'] then .dstar else .glob (tokenize cs.length cs)

/-- Modelled from the spec: parse one line of an ignore file (§4.1):
blank lines and `#` comments yield no rule; a leading `!` negates (`\!`
and `\#` escape the specials); a trailing `/` restricts to directories; a
leading or internal `/` anchors the rule to the walk root. -/
def parseLine (line : String) : Option GPattern :=
  let cs := line.data
  if cs = [] then none
  else if cs.head? = some '#' then none
  else
    let p : Bool × List Char :=
      match cs with
      | '!' :: rest => (true, rest)
      | '\\' :: '!' :: rest => (false, '!' :: rest)
      | '\\' :: '#' :: rest => (false, '#' :: rest)
      | other => (false, other)
    let q : Bool × List Char :=
      match p.2.getLast? with
      | some '/' => (true, p.2.dropLast)
      | _ => (false, p.2)
    match splitSlash q.2 with
    | [] :: rest => some ⟨p.1, true, q.1, rest.map compileSeg⟩
    | [seg] => some ⟨p.1, false, q.1, [compileSeg seg]⟩
    | segs => some ⟨p.1, true, q.1, segs.map compileSeg⟩

/-- Modelled from the spec: compile ignore lines in order
(`pathspec.PathSpec.from_lines("gitwildmatch", lines)`). -/
def parseLines (lines : List String) : List GPattern := lines.filterMap parseLine

/-- Modelled from the spec: does pattern `p` match the path with segments
`segs` (a directory iff `isDir`)?  A directory-only rule matches only
directories; an unanchored rule matches its segments at any depth, an
anchored one only from the root. -/
def patMatches (p : GPattern) (segs : List String) (isDir : Bool) : Bool :=
  (!p.dirOnly || isDir) &&
    (if p.anchored then segsMatch p.segs segs
     else segsMatch (.dstar :: p.segs) segs)

/-- Modelled from the spec: evaluate the rules in order; each matching
rule sets the current state (negation re-includes), the last matching
rule wins (§4.1 `match`).  `none` means no rule matched. -/
def lastMatch (pats : List GPattern) (segs : List String) (isDir : Bool) : Option Bool :=
  pats.foldl (fun st p => if patMatches p segs isDir then some (!p.negated) else st) none

/-- The nonempty proper prefixes of a path's segments: its ancestor
directories. -/
def properPrefixes (segs : List String) : List (List String) :=
  (List.range (segs.length - 1)).map fun n => segs.take (n + 1)

/-- Modelled from the spec: the verdict of the compiled pattern set for a
file path (§3 PatternSet invariant): the file is ignored iff its own final
state is "excluded", or some ancestor directory's final state is
"excluded" (a negation cannot re-include a file inside an excluded
directory). -/
def matchFile (pats : List GPattern) (segs : List String) : Bool :=
  (properPrefixes segs).any (fun q => lastMatch pats q true == some true) ||
    lastMatch pats segs false == some true

/-- Embeds `core.DEFAULT_IGNORE_FILES`. -/
def DEFAULT_IGNORE_FILES : List String := [".git", "uv.lock", "package-lock.json"]

/-- Embeds `core.get_path_specification`, with the reading of the ignore files
already done: `ignore_files_lines` is the concatenation of the lines of
the existing ignore files, and each default ignore entry is appended to it
when `ignore_defaults` is set (the existence warning only logs). -/
def get_path_specification (ignore_files_lines : List String)
    (ignore_defaults : Bool) : List String :=
  DEFAULT_IGNORE_FILES.foldl
    (fun ls ignore_file => if ignore_defaults then ls ++ [ignore_file] else ls)
    ignore_files_lines

/-- One filesystem object seen by `root_dir.rglob("*")` during the walk:
its path relative to the walk root (as `/`-separated segments), whether it
is a regular file, and its readable bytes (`none` when reading raises). -/
structure Entry where
  path : List String
  isFile : Bool
  content : Option (List Nat)
deriving DecidableEq

/-- The relative path string `str(path.relative_to(root_dir))`. -/
def pathStr (segs : List String) : String := String.intercalate "/" segs

/-- The full path string of an entry under the walk root. -/
def fullPath (root : String) (e : Entry) : String := root ++ "/" ++ pathStr e.path

/-- Python-style strict lexicographic comparison of strings by code
point. -/
def lexLt : List Char → List Char → Bool
  | [], [] => false
  | [], _ :: _ => true
  | _ :: _, [] => false
  | a :: as, b :: bs => a < b || (a = b && lexLt as bs)

/-- The corresponding non-strict comparison. -/
def lexLE (a b : List Char) : Bool := !lexLt b a

/-- Comparison of entries by full path, the order of
`sorted(root_dir.rglob("*"))`. -/
def entryLE (root : String) (a b : Entry) : Prop :=
  lexLE (fullPath root a).data (fullPath root b).data = true

instance (root : String) : DecidableRel (entryLE root) := fun _ _ =>
  inferInstanceAs (Decidable (_ = true))

/-- Embeds `core.FileCollection`. -/
structure FileCollection where
  all_files : List Entry
  text_files : List Entry
deriving DecidableEq

/-- The body of the `for path in sorted(root_dir.rglob("*"))` loop of
`core.collect_files`: skip non-files, skip entries whose relative path the
specification matches, append the rest to `all_files`, and additionally to
`text_files` when `is_text_file` holds. -/
def collectLoop (matcher : List String → Bool) : List Entry → List Entry × List Entry
  | [] => ([], [])
  | e :: rest =>
    if !e.isFile then collectLoop matcher rest
    else if matcher e.path then collectLoop matcher rest
    else
      let p := collectLoop matcher rest
      (e :: p.1, if is_text_file e.content then e :: p.2 else p.2)

/-- Embeds `core.collect_files`: `entries` are the filesystem objects that
`root_dir.rglob("*")` enumerates; `matcher` is
`path_specification.match_file` on the root-relative path. -/
def collect_files (root : String) (entries : List Entry)
    (matcher : List String → Bool) : FileCollection :=
  let p := collectLoop matcher (List.insertionSort (entryLE root) entries)
  ⟨p.1, p.2⟩

/-- The nested mapping from path segment to subtree that
`core.generate_tree` builds with `setdefault` (an association list keeps
insertion order like a Python `dict`). -/
inductive PTree where
  | node (children : List (String × PTree)) : PTree

/-- The children of a tree node. -/
def PTree.children : PTree → List (String × PTree)
  | .node cs => cs

/-- Python `dict` lookup on the association list. -/
def assocGet (cs : List (String × PTree)) (k : String) : Option PTree :=
  (cs.find? fun p => p.1 == k).map (·.2)

/-- Replace the value stored under an existing key, keeping its position
(Python `dict` update keeps insertion order). -/
def assocSet : List (String × PTree) → String → PTree → List (String × PTree)
  | [], k, v => [(k, v)]
  | (k', v') :: rest, k, v =>
    if k' == k then (k, v) :: rest else (k', v') :: assocSet rest k v

/-- Insert one relative path into the tree, segment by segment, mirroring
the `current.setdefault(part, {})` chain of `core.generate_tree` (an
existing subtree is kept, a missing key is appended with a fresh empty
map). -/
def PTree.insertPath : PTree → List String → PTree
  | t, [] => t
  | .node cs, s :: rest =>
    match assocGet cs s with
    | some c => .node (assocSet cs s (insertPath c rest))
    | none => .node (cs ++ [(s, insertPath (.node []) rest)])

/-- Sibling order of `sorted(current.keys())`. -/
def childLE (a b : String × PTree) : Prop := lexLE a.1.data b.1.data = true

instance : DecidableRel childLE := fun _ _ =>
  inferInstanceAs (Decidable (_ = true))

/-- The inner `build_tree(current, prefix)` of `core.generate_tree`:
sort the siblings, draw `├── `/`└── ` connectors (the latter for the last
sibling), and recurse into non-empty subtrees with the continuation
prefix `│   ` (or `    ` after the last sibling).  `fuel` only bounds the
recursion depth; `generate_tree` supplies more fuel than the tree is
deep, so the `0` case is never reached. -/
def build_tree : Nat → List (String × PTree) → List Char → List Char
  | 0, _, _ => []
  | fuel + 1, current, pref =>
    let entries := List.insertionSort childLE current
    let n := entries.length
    let lines := entries.enum.foldr
      (fun p acc =>
        let connector := if p.1 = n - 1 then chars "└── " else chars "├── "
        let line := pref ++ connector ++ p.2.1.data
        match p.2.2 with
        | .node [] => line :: acc
        | .node (c :: cs) =>
          let extension := if p.1 = n - 1 then chars "    " else chars "│   "
          line :: build_tree fuel (c :: cs) (pref ++ extension) :: acc)
      []
    joinSep (chars "\n") lines

/-- The block of output lines contributed by the entry at position `p.1`
of a sorted sibling list of length `n` in `build_tree`: its own connector
line and, when its subtree is non-empty, the recursively rendered
subtree. -/
def entryBlockLines (fuel : Nat) (n : Nat) (pref : List Char)
    (p : Nat × (String × PTree)) : List (List Char) :=
  let connector := if p.1 = n - 1 then chars "└── " else chars "├── "
  let line := pref ++ connector ++ p.2.1.data
  match p.2.2 with
  | .node [] => [line]
  | .node (c :: cs) =>
    let extension := if p.1 = n - 1 then chars "    " else chars "│   "
    [line, build_tree fuel (c :: cs) (pref ++ extension)]

/-- One more than the deepest path: enough fuel for `build_tree` to
finish every branch. -/
def treeFuel (files : List (List String)) : Nat :=
  files.foldl (fun m f => max m f.length) 0 + 1

/-- Embeds `core.generate_tree`: `files` are the walked files' paths relative to
`root_dir` (`file.relative_to(root_dir).parts`), inserted in order into
the nested mapping, which is then rendered with an empty prefix. -/
def generate_tree (files : List (List String)) : List Char :=
  let tree := files.foldl PTree.insertPath (.node [])
  build_tree (treeFuel files) tree.children []

example : splitlines (chars "a\nb") = [chars "a", chars "b"] := by decide
example : splitlines (chars "a\n") = [chars "a"] := by decide
example : splitlines (chars "a\n\n") = [chars "a", []] := by decide
example : splitlines (chars "") = [] := by decide
example : splitlines (chars "\n") = [[]] := by decide
example : splitlines (chars "a\r\nb\rc") = [chars "a", chars "b", chars "c"] := by decide
example : splitlines (chars "a\x0bb\n") = [chars "a", chars "b"] := by decide
example : splitlines (chars "a\x0cb\x85c\u2028d\u2029e") =
    [chars "a", chars "b", chars "c", chars "d", chars "e"] := by decide
example : add_line_numbers (chars "x\ny") (chars " | ") = chars "1 | x\n2 | y" := by decide
example :
    add_line_numbers (chars "Line 1\nLine 2\nLine 3") (chars " | ") =
      chars "1 | Line 1\n2 | Line 2\n3 | Line 3" := by decide
example : add_line_numbers (chars "") (chars " | ") = [] := by decide
example : is_text_file (some [65, 0, 66]) = false := by decide
example : is_text_file (some []) = true := by decide
example : is_text_file none = false := by decide
example :
    format_file_section (chars "a") (chars "b") .separator true false (chars "|") =
      chars "\n=== start a ===\nb\n=== end a ===\n" := by decide
example :
    format_file_section (chars "a") (chars "b") .separator false false (chars "|") =
      chars "\n=== a ===\nb" := by decide
example : matchFile (parseLines ["*.log", "!keep.log"]) ["a.log"] = true := by decide
example : matchFile (parseLines ["*.log", "!keep.log"]) ["keep.log"] = false := by decide
example : matchFile (parseLines ["*.log", "!keep.log"]) ["b.txt"] = false := by decide
example : matchFile (parseLines ["*.log", "!keep.log"]) [".gitignore"] = false := by decide
example : matchFile (parseLines ["/build"]) ["build", "x.txt"] = true := by decide
example : matchFile (parseLines ["/build"]) ["src", "build", "x.txt"] = false := by decide
example :
    matchFile (parseLines ["/root-build", "build-anywhere"])
      ["src", "build-anywhere", "file.txt"] = true := by decide
example :
    matchFile (parseLines ["/root-build", "build-anywhere"])
      ["src", "root-build", "file.txt"] = false := by decide
example :
    matchFile (parseLines ["", "# comment", "/root-build"]) ["root-build", "file.txt"] = true := by
  decide
example :
    get_path_specification ["!uv.lock"] true =
      ["!uv.lock", ".git", "uv.lock", "package-lock.json"] := by decide
example :
    matchFile (parseLines (get_path_specification ["!uv.lock"] true)) ["uv.lock"] = true := by
  decide
example : matchFile (parseLines ["dir", "!dir/keep.txt"]) ["dir", "keep.txt"] = true := by decide
example : matchFile (parseLines ["a?c[0-9]"]) ["abc7"] = true := by decide
example : matchFile (parseLines ["a?c[0-9]"]) ["abc"] = false := by decide
example : matchFile (parseLines ["src/**/x.txt"]) ["src", "a", "b", "x.txt"] = true := by decide
example : matchFile (parseLines ["src/**/x.txt"]) ["other", "x.txt"] = false := by decide
example :
    generate_tree [["src", "b.txt"], ["a.txt"], ["src", "a.txt"],
        ["src", "sub", "x.txt"], ["z.txt"]] =
      chars
        "├── a.txt\n├── src\n│   ├── a.txt\n│   ├── b.txt\n│   └── sub\n│       └── x.txt\n└── z.txt" := by
  decide
example : generate_tree [["a.txt"]] = chars "└── a.txt" := by decide
example :
    (collect_files "r"
        [⟨["dir1", "test2.txt"], true, some [53]⟩, ⟨["dir1"], false, none⟩,
         ⟨["dir1", "test1.txt"], true, some [52]⟩]
        (matchFile (parseLines []))).all_files.map (fun e => pathStr e.path) =
      ["dir1/test1.txt", "dir1/test2.txt"] := by decide
example :
    (collect_files "r"
        [⟨["a.txt"], true, some [53]⟩, ⟨["b.bin"], true, some [0, 1]⟩,
         ⟨["c.txt"], true, none⟩]
        (matchFile (parseLines []))).text_files.map (fun e => pathStr e.path) =
      ["a.txt"] := by decide

/-! ### Support lemmas -/

theorem lexLt_irrefl : ∀ a, lexLt a a = false
  | [] => rfl
  | a :: as => by simp [lexLt, lexLt_irrefl as]

theorem lexLt_trans : ∀ {a b c}, lexLt a b = true → lexLt b c = true → lexLt a c = true
  | [], [], _ :: _, _, _ => rfl
  | [], _ :: _, _ :: _, _, _ => rfl
  | a :: as, b :: bs, c :: cs, h1, h2 => by
    simp only [lexLt, Bool.or_eq_true, Bool.and_eq_true, decide_eq_true_eq] at h1 h2 ⊢
    rcases h1 with h1 | ⟨rfl, h1⟩
    · rcases h2 with h2 | ⟨rfl, _⟩
      · exact Or.inl (lt_trans h1 h2)
      · exact Or.inl h1
    · rcases h2 with h2 | ⟨rfl, h2⟩
      · exact Or.inl h2
      · exact Or.inr ⟨rfl, lexLt_trans h1 h2⟩

theorem lexLt_total : ∀ a b, lexLt a b = true ∨ a = b ∨ lexLt b a = true
  | [], [] => Or.inr (Or.inl rfl)
  | [], _ :: _ => Or.inl rfl
  | _ :: _, [] => Or.inr (Or.inr rfl)
  | a :: as, b :: bs => by
    rcases lt_trichotomy a b with h | rfl | h
    · exact Or.inl (by simp [lexLt, h])
    · rcases lexLt_total as bs with h | rfl | h
      · exact Or.inl (by simp [lexLt, h])
      · exact Or.inr (Or.inl rfl)
      · exact Or.inr (Or.inr (by simp [lexLt, h]))
    · exact Or.inr (Or.inr (by simp [lexLt, h]))

theorem lexLt_asymm {a b} (h : lexLt a b = true) : lexLt b a = false := by
  by_contra hc
  have hba : lexLt b a = true := by
    cases hh : lexLt b a
    · exact absurd hh hc
    · rfl
  have := lexLt_trans h hba
  rw [lexLt_irrefl] at this
  exact Bool.false_ne_true this

theorem lexLE_total (a b : List Char) : lexLE a b = true ∨ lexLE b a = true := by
  unfold lexLE
  cases h : lexLt b a
  · exact Or.inl (by simp)
  · exact Or.inr (by simp [lexLt_asymm h])

theorem lexLE_trans {a b c} (h1 : lexLE a b = true) (h2 : lexLE b c = true) :
    lexLE a c = true := by
  unfold lexLE at h1 h2 ⊢
  rw [Bool.not_eq_true'] at h1 h2 ⊢
  cases hca : lexLt c a
  · rfl
  · exfalso
    rcases lexLt_total a b with hab | rfl | hba
    · exact absurd ((lexLt_trans hca hab).symm.trans h2) (by simp)
    · exact absurd (hca.symm.trans h2) (by simp)
    · exact absurd (hba.symm.trans h1) (by simp)

set_option maxHeartbeats 1600000 in
theorem splitlinesAux_eq_nil_iff :
    ∀ cs acc, splitlinesAux cs acc = [] ↔ cs = [] ∧ acc.isEmpty = true := by
  intro cs acc
  induction cs, acc using splitlinesAux.induct
  case case1 acc h => simp [splitlinesAux, h]
  case case2 acc h => simp [splitlinesAux, h]
  case case3 rest acc ih => simp [splitlinesAux]
  case case4 c rest acc h1 hb ih => simp [splitlinesAux, h1, hb]
  case case5 c rest acc h1 hb ih => simp [splitlinesAux, h1, hb, ih]

theorem splitlines_ne_nil {cs : List Char} (h : cs ≠ []) : splitlines cs ≠ [] := by
  unfold splitlines
  rw [Ne, splitlinesAux_eq_nil_iff]
  simp [h]

theorem splitOnNlAux_ne_nil : ∀ cs acc, splitOnNlAux cs acc ≠ [] := by
  intro cs acc
  induction cs, acc using splitOnNlAux.induct
  case case1 acc => simp [splitOnNlAux]
  case case2 rest acc ih => simp [splitOnNlAux]
  case case3 c rest acc h ih => simpa [splitOnNlAux, h] using ih

theorem no_newline_splitlinesAux :
    ∀ cs acc, '\n' ∉ acc → ∀ l ∈ splitlinesAux cs acc, '\n' ∉ l := by
  intro cs acc
  induction cs, acc using splitlinesAux.induct <;> intro hacc l hl
  case case1 acc h => simp [splitlinesAux, h] at hl
  case case2 acc h =>
    simp [splitlinesAux, h] at hl
    subst hl
    simpa using hacc
  case case3 rest acc ih =>
    simp only [splitlinesAux, List.mem_cons] at hl
    rcases hl with rfl | hl
    · simpa using hacc
    · exact ih (by simp) l hl
  case case4 c rest acc h1 hb ih =>
    rw [show splitlinesAux (c :: rest) acc = acc.reverse :: splitlinesAux rest [] by
      simp [splitlinesAux, h1, hb]] at hl
    rcases List.mem_cons.mp hl with rfl | hl
    · simpa using hacc
    · exact ih (by simp) l hl
  case case5 c rest acc h1 hb ih =>
    rw [show splitlinesAux (c :: rest) acc = splitlinesAux rest (c :: acc) by
      simp [splitlinesAux, h1, hb]] at hl
    refine ih ?_ l hl
    intro hc
    rcases List.mem_cons.mp hc with rfl | hc
    · exact hb (by decide)
    · exact hacc hc

theorem splitlinesAux_eq_dropLast :
    ∀ cs acc, (∀ c ∈ cs, isLineBreak c = true → c = '\n') →
      cs.getLast? = some '\n' →
      splitlinesAux cs acc = (splitOnNlAux cs acc).dropLast := by
  intro cs acc
  induction cs, acc using splitlinesAux.induct <;> intro honly hl
  case case1 acc h => simp at hl
  case case2 acc h => simp at hl
  case case3 rest acc ih =>
    have hrn : ('\r' : Char) = '\n' := honly '\r' (by simp) (by decide)
    exact absurd hrn (by decide)
  case case4 c rest acc h1 hb ih =>
    have hcn : c = '\n' := honly c (by simp) hb
    subst hcn
    rcases hrest : rest with _ | ⟨r, rs⟩
    · simp [splitlinesAux, splitOnNlAux, isLineBreak]
    · have hl2 : rest.getLast? = some '\n' := by
        rw [hrest] at hl ⊢
        rwa [List.getLast?_cons_cons] at hl
      rw [← hrest]
      have ihh := ih (fun d hd hbd => honly d (List.mem_cons_of_mem _ hd) hbd) hl2
      rw [show splitlinesAux ('\n' :: rest) acc = acc.reverse :: splitlinesAux rest [] by
        simp [splitlinesAux, isLineBreak]]
      simp only [splitOnNlAux]
      rw [List.dropLast_cons_of_ne_nil (splitOnNlAux_ne_nil rest []), ihh]
  case case5 c rest acc h1 hb ih =>
    have hcn : c ≠ '\n' := by
      intro hc
      subst hc
      exact hb (by decide)
    have hne : rest ≠ [] := by
      intro hrest
      subst hrest
      simp at hl
      exact hcn hl
    have hl2 : rest.getLast? = some '\n' := by
      rcases rest with _ | ⟨r, rs⟩
      · exact absurd rfl hne
      · rwa [List.getLast?_cons_cons] at hl
    have ihh := ih (fun d hd hbd => honly d (List.mem_cons_of_mem _ hd) hbd) hl2
    rw [show splitlinesAux (c :: rest) acc = splitlinesAux rest (c :: acc) by
        simp [splitlinesAux, h1, hb],
      show splitOnNlAux (c :: rest) acc = splitOnNlAux rest (c :: acc) by
        simp [splitOnNlAux, hcn],
      ihh]

theorem joinSep_append (s : List Char) :
    ∀ A B : List (List Char), A ≠ [] → B ≠ [] →
      joinSep s (A ++ B) = joinSep s A ++ s ++ joinSep s B := by
  intro A
  induction A with
  | nil => intro B h _; exact absurd rfl h
  | cons a as ih =>
    intro B _ hB
    rcases as with _ | ⟨a2, as2⟩
    · rcases B with _ | ⟨b, bs⟩
      · exact absurd rfl hB
      · rfl
    · have e : joinSep s ((a :: a2 :: as2) ++ B) =
          a ++ s ++ joinSep s ((a2 :: as2) ++ B) := rfl
      rw [e, ih B (by simp) hB]
      simp [joinSep, List.append_assoc]

theorem joinSep_join (s : List Char) :
    ∀ groups : List (List (List Char)), (∀ g ∈ groups, g ≠ []) →
      joinSep s groups.join = joinSep s (groups.map (joinSep s)) := by
  intro groups
  induction groups with
  | nil => intro _; rfl
  | cons g gs ih =>
    intro hne
    rcases gs with _ | ⟨g2, gs2⟩
    · simp [List.join, joinSep]
    · have hg : g ≠ [] := hne g (by simp)
      have hjoin : (g2 :: gs2).join ≠ [] := by
        have hg2 : g2 ≠ [] := hne g2 (by simp)
        rcases g2 with _ | ⟨x, xs⟩
        · exact absurd rfl hg2
        · simp [List.join]
      calc joinSep s ((g :: g2 :: gs2).join)
          = joinSep s (g ++ (g2 :: gs2).join) := rfl
        _ = joinSep s g ++ s ++ joinSep s ((g2 :: gs2).join) :=
            joinSep_append s _ _ hg hjoin
        _ = joinSep s g ++ s ++ joinSep s ((g2 :: gs2).map (joinSep s)) := by
            rw [ih (fun g3 hg3 => hne g3 (List.mem_cons_of_mem _ hg3))]
        _ = joinSep s ((g :: g2 :: gs2).map (joinSep s)) := rfl

theorem foldr_entryBlockLines (fuel n : Nat) (pref : List Char) :
    ∀ l : List (Nat × (String × PTree)),
      l.foldr
        (fun p acc =>
          let connector := if p.1 = n - 1 then chars "└── " else chars "├── "
          let line := pref ++ connector ++ p.2.1.data
          match p.2.2 with
          | .node [] => line :: acc
          | .node (c :: cs) =>
            let extension := if p.1 = n - 1 then chars "    " else chars "│   "
            line :: build_tree fuel (c :: cs) (pref ++ extension) :: acc)
        [] = (l.map (entryBlockLines fuel n pref)).join := by
  intro l
  induction l with
  | nil => rfl
  | cons p ps ih =>
    rcases p with ⟨i, k, t⟩
    rcases t with ⟨cc⟩
    rw [List.foldr_cons, ih]
    rcases cc with _ | ⟨c, cs⟩ <;> rfl

theorem build_tree_succ (fuel : Nat) (cs : List (String × PTree)) (pref : List Char) :
    build_tree (fuel + 1) cs pref =
      joinSep (chars "\n")
        (((List.insertionSort childLE cs).enum.map
          (entryBlockLines fuel (List.insertionSort childLE cs).length pref)).join) := by
  rw [build_tree, foldr_entryBlockLines]

theorem entryBlockLines_ne_nil (fuel n : Nat) (pref : List Char)
    (p : Nat × (String × PTree)) : entryBlockLines fuel n pref p ≠ [] := by
  rcases p with ⟨i, k, t⟩
  rcases t with ⟨cc⟩
  rcases cc with _ | ⟨c, cs⟩ <;> simp [entryBlockLines]

theorem joinSep_getLast? :
    ∀ (s : List Char) (L : List (List Char)) (a : List Char),
      L.getLast? = some a → a ≠ [] → (joinSep s L).getLast? = a.getLast? := by
  intro s L
  induction L with
  | nil => intro a h _; simp at h
  | cons x rest ih =>
    intro a h ha
    rcases rest with _ | ⟨y, ys⟩
    · simp at h
      subst h
      rfl
    · rw [List.getLast?_cons_cons] at h
      have ihh := ih a h ha
      have hsome : a.getLast? = some (a.getLast ha) := List.getLast?_eq_getLast_of_ne_nil ha
      have hne : joinSep s (y :: ys) ≠ [] := by
        intro hz
        rw [hz, hsome] at ihh
        simp at ihh
      have e : joinSep s (x :: y :: ys) = (x ++ s) ++ joinSep s (y :: ys) := rfl
      rw [e, List.getLast?_append_of_ne_nil _ hne, ihh]
theorem getLast?_add_line_numbers (content sep : List Char) (h : content ≠ [])
    (hsep : sep ≠ []) :
    ∃ c, (add_line_numbers content sep).getLast? = some c ∧
      (c ∈ sep ∨ ∃ l ∈ splitlines content, c ∈ l) := by
  have hlines : splitlines content ≠ [] := splitlines_ne_nil h
  have hadd : add_line_numbers content sep =
      joinSep (chars "\n")
        ((splitlines content).enum.map fun p =>
          rjust (natChars (p.1 + 1)) (natChars (splitlines content).length).length ++
            sep ++ p.2) := by
    rw [add_line_numbers, if_neg h]
  have hLne : ((splitlines content).enum.map fun p =>
      rjust (natChars (p.1 + 1)) (natChars (splitlines content).length).length ++
        sep ++ p.2) ≠ [] := by
    simpa using hlines
  have hga := List.getLast?_eq_getLast_of_ne_nil hLne
  have haL := List.getLast_mem hLne
  obtain ⟨p, hp, hfp⟩ := List.mem_map.mp haL
  have hane : rjust (natChars (p.1 + 1)) (natChars (splitlines content).length).length ++
      sep ++ p.2 ≠ [] := by
    simp [hsep]
  rw [hfp] at hane
  have hlast := joinSep_getLast? (chars "\n") _ _ hga hane
  rw [← hadd] at hlast
  rw [← hfp] at hlast
  rcases hp2 : p.2 with _ | ⟨d, ds⟩
  · rw [hp2] at hlast
    simp only [List.append_nil] at hlast
    have : (rjust (natChars (p.1 + 1)) (natChars (splitlines content).length).length ++
        sep).getLast? = sep.getLast? := List.getLast?_append_of_ne_nil _ hsep
    rw [this, List.getLast?_eq_getLast_of_ne_nil hsep] at hlast
    exact ⟨sep.getLast hsep, hlast, Or.inl (List.getLast_mem hsep)⟩
  · have hp2ne : p.2 ≠ [] := by simp [hp2]
    have : (rjust (natChars (p.1 + 1)) (natChars (splitlines content).length).length ++
        sep ++ p.2).getLast? = p.2.getLast? := List.getLast?_append_of_ne_nil _ hp2ne
    rw [this, List.getLast?_eq_getLast_of_ne_nil hp2ne] at hlast
    have hmem : p.2 ∈ splitlines content := by
      have := List.mem_map_of_mem Prod.snd hp
      rwa [List.enum_map_snd] at this
    exact ⟨p.2.getLast hp2ne, hlast, Or.inr ⟨p.2, hmem, List.getLast_mem hp2ne⟩⟩

/-! ### Claims -/

/-- Claim C4: for non-empty content `C` and any separator `S`,
`add_line_numbers` produces exactly as many numbered output lines as `C`
has lines, the `i`-th being the 1-based line number `i+1` right-justified
to the width of the decimal representation of the total line count,
followed by `S`, followed by the `i`-th line. -/
theorem add_line_numbers_counts_and_prefixes (content sep : List Char)
    (h : content ≠ []) :
    ∃ L : List (List Char),
      add_line_numbers content sep = joinSep (chars "\n") L ∧
      L.length = (splitlines content).length ∧
      ∀ i : Nat,
        L.get? i = ((splitlines content).get? i).map fun line =>
          rjust (natChars (i + 1)) (natChars (splitlines content).length).length ++
            sep ++ line := by
  refine ⟨(splitlines content).enum.map fun p =>
      rjust (natChars (p.1 + 1)) (natChars (splitlines content).length).length ++
        sep ++ p.2, ?_, by simp, ?_⟩
  · rw [add_line_numbers, if_neg h]
  · intro i
    rw [List.get?_map, List.enum_get?]
    cases (splitlines content).get? i <;> simp

/-- Witness for C4 at concrete input `"a\nb"` with separator `" | "`. -/
theorem add_line_numbers_counts_and_prefixes_witness :
    ∃ L : List (List Char),
      add_line_numbers (chars "a\nb") (chars " | ") = joinSep (chars "\n") L ∧
      L.length = (splitlines (chars "a\nb")).length ∧
      ∀ i : Nat,
        L.get? i = ((splitlines (chars "a\nb")).get? i).map fun line =>
          rjust (natChars (i + 1))
              (natChars (splitlines (chars "a\nb")).length).length ++
            chars " | " ++ line :=
  add_line_numbers_counts_and_prefixes (chars "a\nb") (chars " | ") (by decide)

/-- Claim C5: the text classifier inspects at most the first 1024 bytes
(its verdict depends only on that prefix), reports binary exactly when the
sampled prefix contains a null byte, and classifies every empty file as
text. -/
theorem is_text_file_null_byte_policy :
    (∀ bytes : List Nat, is_text_file (some bytes) = false ↔ 0 ∈ bytes.take 1024) ∧
    (∀ b1 b2 : List Nat, b1.take 1024 = b2.take 1024 →
      is_text_file (some b1) = is_text_file (some b2)) ∧
    is_text_file (some []) = true := by
  refine ⟨fun bytes => ?_, fun b1 b2 hpre => ?_, rfl⟩
  · simp [is_text_file, List.contains]
  · simp [is_text_file, hpre]

/-- Witness for C5: a null byte beyond the 1024-byte sample is invisible
to the classifier. -/
theorem is_text_file_null_byte_policy_witness :
    is_text_file (some [7, 0]) = false ∧
    is_text_file (some (List.replicate 1024 1 ++ [0])) =
      is_text_file (some (List.replicate 1024 1)) :=
  ⟨(is_text_file_null_byte_policy.1 [7, 0]).mpr (by decide),
   is_text_file_null_byte_policy.2.1 _ _ (by rw [List.take_append_of_le_length (by rw [List.length_replicate])])⟩

/-- Claim C10: empty content is returned unchanged; for non-empty content
ending in a newline (and a separator that is non-empty and
newline-free, as the default `" | "` is), the numbered result does not
end in a newline; and for content whose only line-break characters are
`'\n'` (Python `splitlines` also breaks at `\v`, `\f`, `\x1c`-`\x1e`,
`\x85`, `\u2028`, `\u2029`), the final empty segment that a naive
`'\n'`-split of newline-terminated content produces is dropped, not
counted as a line. -/
theorem add_line_numbers_trailing_newline :
    (∀ sep : List Char, add_line_numbers [] sep = []) ∧
    (∀ content sep : List Char, content ≠ [] → content.getLast? = some '\n' →
      sep ≠ [] → '\n' ∉ sep →
      (add_line_numbers content sep).getLast? ≠ some '\n') ∧
    (∀ content : List Char, content.getLast? = some '\n' →
      (∀ c ∈ content, isLineBreak c = true → c = '\n') →
      splitlines content = (splitOnNl content).dropLast) := by
  refine ⟨fun sep => rfl, fun content sep h _ hsep hnl => ?_,
    fun content hlast honly => splitlinesAux_eq_dropLast content [] honly hlast⟩
  obtain ⟨c, hc, hmem⟩ := getLast?_add_line_numbers content sep h hsep
  rw [hc]
  intro heq
  have hcn : c = '\n' := by injection heq
  subst hcn
  rcases hmem with hmem | ⟨l, hl, hcl⟩
  · exact hnl hmem
  · exact no_newline_splitlinesAux content [] (by simp) l hl hcl

/-- Witness for C10 at `"hi\n"` with the default separator. -/
theorem add_line_numbers_trailing_newline_witness :
    (add_line_numbers (chars "hi\n") defaultNumberSeparator).getLast? ≠ some '\n' ∧
    splitlines (chars "hi\n") = (splitOnNl (chars "hi\n")).dropLast :=
  ⟨add_line_numbers_trailing_newline.2.1 (chars "hi\n") defaultNumberSeparator
      (by decide) (by decide) (by decide) (by decide),
   add_line_numbers_trailing_newline.2.2 (chars "hi\n") (by decide) (by decide)⟩

/-- Claim C7 (counterexample): the separator-style output with footer
enabled, minus its footer line, is NOT the footer-disabled output: at
path `"a"` and content `"b"` the former reads `"\n=== start a ===\nb"`
while the latter reads `"\n=== a ===\nb"` (the `start ` marker differs). -/
theorem format_separator_roundtrip_counterexample :
    ¬ ((format_file_section (chars "a") (chars "b") .separator true false
          (chars "|")).take
        ((format_file_section (chars "a") (chars "b") .separator true false
            (chars "|")).length -
          (chars "\n=== end a ===\n").length) =
      format_file_section (chars "a") (chars "b") .separator false false
        (chars "|")) := by decide

/-- Claim C7 (amended): in separator style, the path embedded after the
`start ` marker of the footer-enabled output equals the path embedded in
the footer-disabled header, the path embedded in the `end ` footer equals
it as well, and the footer-enabled output minus its footer line equals the
footer-disabled output with `start ` inserted after the opening
`"\n=== "`. -/
theorem format_separator_roundtrip_amended (path content nsep : List Char)
    (ln : Bool) :
    ((format_file_section path content .separator true ln nsep).drop
        (chars "\n=== start ").length).take path.length = path ∧
    ((format_file_section path content .separator false ln nsep).drop
        (chars "\n=== ").length).take path.length = path ∧
    ((format_file_section path content .separator true ln nsep).drop
        ((format_file_section path content .separator true ln nsep).length -
          (path.length + (chars " ===\n").length))).take path.length = path ∧
    (format_file_section path content .separator true ln nsep).take
        ((format_file_section path content .separator true ln nsep).length -
          (chars "\n=== end " ++ path ++ chars " ===\n").length) =
      chars "\n=== start " ++
        (format_file_section path content .separator false ln nsep).drop
          (chars "\n=== ").length := by
  have h1 : format_file_section path content .separator true ln nsep =
      chars "\n=== start " ++ (path ++ (chars " ===\n" ++
        ((if ln then add_line_numbers content nsep else content) ++
          (chars "\n=== end " ++ (path ++ chars " ===\n"))))) := by
    simp only [format_file_section, List.append_assoc]
    rfl
  have h2 : format_file_section path content .separator false ln nsep =
      chars "\n=== " ++ (path ++ (chars " ===\n" ++
        (if ln then add_line_numbers content nsep else content))) := by
    simp [format_file_section, List.append_assoc]
  refine ⟨?_, ?_, ?_, ?_⟩
  · rw [h1, List.drop_left, List.take_left]
  · rw [h2, List.drop_left, List.take_left]
  · have hout2 : format_file_section path content .separator true ln nsep =
        (chars "\n=== start " ++ (path ++ (chars " ===\n" ++
          ((if ln then add_line_numbers content nsep else content) ++
            chars "\n=== end ")))) ++ (path ++ chars " ===\n") := by
      rw [h1]
      simp [List.append_assoc]
    rw [hout2, List.drop_left' ?_, List.take_left]
    simp [List.length_append]
    omega
  · have hout3 : format_file_section path content .separator true ln nsep =
        (chars "\n=== start " ++ (path ++ (chars " ===\n" ++
          (if ln then add_line_numbers content nsep else content)))) ++
          (chars "\n=== end " ++ (path ++ chars " ===\n")) := by
      rw [h1]
      simp [List.append_assoc]
    rw [hout3, List.take_left' ?_, h2, List.drop_left]
    simp [List.length_append]
    omega

theorem collectLoop_fst_eq_filter (matcher : List String → Bool) :
    ∀ l : List Entry,
      (collectLoop matcher l).1 = l.filter fun e => e.isFile && !matcher e.path := by
  intro l
  induction l with
  | nil => rfl
  | cons e rest ih =>
    by_cases hf : e.isFile = true
    · by_cases hm : matcher e.path = true
      · simp [collectLoop, hf, hm, List.filter, ih]
      · simp only [Bool.not_eq_true] at hm
        simp [collectLoop, hf, hm, List.filter, ih]
    · simp only [Bool.not_eq_true] at hf
      simp [collectLoop, hf, List.filter, ih]

theorem collectLoop_snd_eq_filter (matcher : List String → Bool) :
    ∀ l : List Entry,
      (collectLoop matcher l).2 =
        (collectLoop matcher l).1.filter fun e => is_text_file e.content := by
  intro l
  induction l with
  | nil => rfl
  | cons e rest ih =>
    by_cases hf : e.isFile = true
    · by_cases hm : matcher e.path = true
      · simp [collectLoop, hf, hm, ih]
      · simp only [Bool.not_eq_true] at hm
        by_cases ht : is_text_file e.content = true
        · simp [collectLoop, hf, hm, ht, List.filter, ih]
        · simp only [Bool.not_eq_true] at ht
          simp [collectLoop, hf, hm, ht, List.filter, ih]
    · simp only [Bool.not_eq_true] at hf
      simp [collectLoop, hf, ih]

theorem mem_all_files_of_collect (root : String) (entries : List Entry)
    (matcher : List String → Bool) (e : Entry) (he : e ∈ entries)
    (hf : e.isFile = true) (hm : matcher e.path = false) :
    e ∈ (collect_files root entries matcher).all_files := by
  show e ∈ (collectLoop matcher (List.insertionSort (entryLE root) entries)).1
  rw [collectLoop_fst_eq_filter]
  refine List.mem_filter.mpr ⟨?_, by simp [hf, hm]⟩
  exact (List.perm_insertionSort (entryLE root) entries).mem_iff.mpr he

/-- Claim C2: an anchored pattern (leading `/`) matches only relative to the
walk root: with pattern `/build`, the file `build/x.txt` directly under
the root is excluded from the walk's output, while the deeper
`src/build/x.txt` is not excluded. -/
theorem anchored_pattern_only_at_root :
    matchFile (parseLines ["/build"]) ["build", "x.txt"] = true ∧
    matchFile (parseLines ["/build"]) ["src", "build", "x.txt"] = false ∧
    ((⟨["build", "x.txt"], true, some [104]⟩ : Entry) ∉
      (collect_files "root"
        [⟨["build", "x.txt"], true, some [104]⟩, ⟨["build"], false, none⟩,
         ⟨["src"], false, none⟩, ⟨["src", "build"], false, none⟩,
         ⟨["src", "build", "x.txt"], true, some [104]⟩]
        (matchFile (parseLines ["/build"]))).all_files) ∧
    ((⟨["src", "build", "x.txt"], true, some [104]⟩ : Entry) ∈
      (collect_files "root"
        [⟨["build", "x.txt"], true, some [104]⟩, ⟨["build"], false, none⟩,
         ⟨["src"], false, none⟩, ⟨["src", "build"], false, none⟩,
         ⟨["src", "build", "x.txt"], true, some [104]⟩]
        (matchFile (parseLines ["/build"]))).all_files) := by decide

/-- Claim C9: `get_path_specification` appends each default ignore entry
(`.git`, `uv.lock`, `package-lock.json`) after every user line when
defaults are enabled, so under last-match-wins the default `uv.lock`
entry excludes `uv.lock` even though the earlier user line `!uv.lock`
re-includes it (without defaults the negation would win). -/
theorem default_ignores_appended_after_user_lines :
    (∀ lines : List String,
      get_path_specification lines true = lines ++ DEFAULT_IGNORE_FILES ∧
      get_path_specification lines false = lines) ∧
    matchFile (parseLines (get_path_specification ["!uv.lock"] true))
      ["uv.lock"] = true ∧
    matchFile (parseLines ["!uv.lock"]) ["uv.lock"] = false := by
  refine ⟨fun lines => ⟨?_, rfl⟩, by decide, by decide⟩
  show ((lines ++ [".git"]) ++ ["uv.lock"]) ++ ["package-lock.json"] =
    lines ++ DEFAULT_IGNORE_FILES
  simp [DEFAULT_IGNORE_FILES]

/-- Claim C1 (counterexample): in the `.gitignore = "*.log\n!keep.log"`
scenario with files `a.log`, `keep.log`, `b.txt`, the walk's `all_files`
is NOT exactly `{b.txt, keep.log}`: the `.gitignore` file itself, which
no pattern matches, is collected as well. -/
theorem gitignore_negation_scenario_counterexample :
    ¬ (∀ e ∈ (collect_files "root"
          [⟨[".gitignore"], true, some [42]⟩, ⟨["a.log"], true, some [97]⟩,
           ⟨["b.txt"], true, some [98]⟩, ⟨["keep.log"], true, some [107]⟩]
          (matchFile (parseLines
            (get_path_specification ["*.log", "!keep.log"] true)))).all_files,
        pathStr e.path = "b.txt" ∨ pathStr e.path = "keep.log") := by decide

/-- Claim C1 (amended): in the scenario, `all_files` is exactly
`{.gitignore, b.txt, keep.log}` with `a.log` excluded; and in general
every file path whose last matching rule is a negating one (an earlier
rule excluded it, a later negating rule re-included it) and none of whose
ancestor directories is excluded appears in `all_files`. -/
theorem gitignore_negation_reincludes :
    ((collect_files "root"
        [⟨[".gitignore"], true, some [42]⟩, ⟨["a.log"], true, some [97]⟩,
         ⟨["b.txt"], true, some [98]⟩, ⟨["keep.log"], true, some [107]⟩]
        (matchFile (parseLines
          (get_path_specification ["*.log", "!keep.log"] true)))).all_files.map
      (fun e => pathStr e.path) = [".gitignore", "b.txt", "keep.log"]) ∧
    (∀ (root : String) (entries : List Entry) (pats : List GPattern) (e : Entry),
      e ∈ entries → e.isFile = true →
      lastMatch pats e.path false = some false →
      (∀ q ∈ properPrefixes e.path, lastMatch pats q true ≠ some true) →
      e ∈ (collect_files root entries (matchFile pats)).all_files) := by
  refine ⟨by decide, fun root entries pats e he hf hneg hanc => ?_⟩
  refine mem_all_files_of_collect root entries _ e he hf ?_
  unfold matchFile
  rw [Bool.or_eq_false_iff]
  constructor
  · rw [List.any_eq_false]
    intro q hq
    simpa using hanc q hq
  · simp [hneg]

/-- Witness for the general conjunct of C1 at the scenario's `keep.log`. -/
theorem gitignore_negation_reincludes_witness :
    (⟨["keep.log"], true, some [107]⟩ : Entry) ∈
      (collect_files "root"
        [⟨[".gitignore"], true, some [42]⟩, ⟨["a.log"], true, some [97]⟩,
         ⟨["b.txt"], true, some [98]⟩, ⟨["keep.log"], true, some [107]⟩]
        (matchFile (parseLines
          (get_path_specification ["*.log", "!keep.log"] true)))).all_files :=
  gitignore_negation_reincludes.2 "root" _ _ _ (by decide) (by decide) (by decide)
    (by decide)

/-- Claim C3: for every walk, (1) no entry whose relative path the pattern
set matches is in `all_files` or `text_files`; (2) `all_files` is sorted
lexicographically by full path; (3) `text_files` is exactly the
sub-sequence of `all_files` classified as text. -/
theorem collect_files_invariants (root : String) (entries : List Entry)
    (matcher : List String → Bool) :
    (∀ e : Entry, matcher e.path = true →
      e ∉ (collect_files root entries matcher).all_files ∧
      e ∉ (collect_files root entries matcher).text_files) ∧
    List.Sorted (entryLE root) (collect_files root entries matcher).all_files ∧
    (collect_files root entries matcher).text_files =
      (collect_files root entries matcher).all_files.filter
        (fun e => is_text_file e.content) := by
  have hall : (collect_files root entries matcher).all_files =
      (List.insertionSort (entryLE root) entries).filter
        (fun e => e.isFile && !matcher e.path) :=
    collectLoop_fst_eq_filter matcher _
  have htext : (collect_files root entries matcher).text_files =
      (collect_files root entries matcher).all_files.filter
        (fun e => is_text_file e.content) :=
    collectLoop_snd_eq_filter matcher _
  refine ⟨fun e hm => ?_, ?_, htext⟩
  · have hnotall : e ∉ (collect_files root entries matcher).all_files := by
      rw [hall]
      intro hmem
      have := (List.mem_filter.mp hmem).2
      simp [hm] at this
    refine ⟨hnotall, fun hmem => hnotall ?_⟩
    rw [htext] at hmem
    exact (List.mem_filter.mp hmem).1
  · haveI : IsTotal Entry (entryLE root) :=
      ⟨fun a b => lexLE_total (fullPath root a).data (fullPath root b).data⟩
    haveI : IsTrans Entry (entryLE root) :=
      ⟨fun _ _ _ hab hbc => lexLE_trans hab hbc⟩
    rw [hall]
    exact (List.sorted_insertionSort (entryLE root) entries).filter _

/-- Witness for C3: a matched entry is kept out of both lists. -/
theorem collect_files_invariants_witness :
    (⟨["a.log"], true, some [97]⟩ : Entry) ∉
      (collect_files "root" [⟨["a.log"], true, some [97]⟩]
        (matchFile (parseLines ["*.log"]))).all_files :=
  ((collect_files_invariants "root" [⟨["a.log"], true, some [97]⟩]
      (matchFile (parseLines ["*.log"]))).1 _ (by decide)).1

/-- Claim C6: a file whose bytes cannot be read is treated as binary rather
than signalling an error: it is excluded from `text_files`, may still
appear in `all_files`, and every other collectable file is still
collected. -/
theorem unreadable_file_treated_as_binary (root : String) (entries : List Entry)
    (matcher : List String → Bool) (e : Entry) (he : e ∈ entries)
    (hf : e.isFile = true) (hm : matcher e.path = false)
    (hc : e.content = none) :
    e ∈ (collect_files root entries matcher).all_files ∧
    e ∉ (collect_files root entries matcher).text_files ∧
    (∀ e2 : Entry, e2 ∈ entries → e2.isFile = true → matcher e2.path = false →
      e2 ∈ (collect_files root entries matcher).all_files) := by
  refine ⟨mem_all_files_of_collect root entries matcher e he hf hm, ?_,
    fun e2 he2 hf2 hm2 => mem_all_files_of_collect root entries matcher e2 he2 hf2 hm2⟩
  have htext : (collect_files root entries matcher).text_files =
      (collect_files root entries matcher).all_files.filter
        (fun x => is_text_file x.content) :=
    collectLoop_snd_eq_filter matcher _
  rw [htext]
  intro hmem
  have := (List.mem_filter.mp hmem).2
  rw [hc] at this
  simp [is_text_file] at this

/-- Witness for C6: an unreadable `broken.txt` lands in `all_files` but
not in `text_files`, and a healthy sibling is still collected. -/
theorem unreadable_file_treated_as_binary_witness :
    (⟨["broken.txt"], true, none⟩ : Entry) ∈
      (collect_files "root"
        [⟨["broken.txt"], true, none⟩, ⟨["ok.txt"], true, some [111]⟩]
        (matchFile (parseLines []))).all_files ∧
    (⟨["broken.txt"], true, none⟩ : Entry) ∉
      (collect_files "root"
        [⟨["broken.txt"], true, none⟩, ⟨["ok.txt"], true, some [111]⟩]
        (matchFile (parseLines []))).text_files ∧
    (⟨["ok.txt"], true, some [111]⟩ : Entry) ∈
      (collect_files "root"
        [⟨["broken.txt"], true, none⟩, ⟨["ok.txt"], true, some [111]⟩]
        (matchFile (parseLines []))).all_files := by
  obtain ⟨h1, h2, h3⟩ := unreadable_file_treated_as_binary "root"
    [⟨["broken.txt"], true, none⟩, ⟨["ok.txt"], true, some [111]⟩]
    (matchFile (parseLines [])) ⟨["broken.txt"], true, none⟩
    (by decide) (by decide) (by decide) (by decide)
  exact ⟨h1, h2, h3 _ (by decide) (by decide) (by decide)⟩

/-- Claim C8: the tree renderer, for any input, builds the nested
segment map and renders it level by level: for every node's children
list and every prefix, the output joins one block per child, the children
taken in lexicographically sorted order (a permutation of the node's
children), block `i` drawn as the prefix, then `├── ` for all but the
last sibling and `└── ` for the last, then the segment, then — for a
non-empty subtree — a newline and the subtree rendered with the
continuation prefix `│   ` (or `    ` after the last sibling); shown
end-to-end on a deliberately unsorted input, and the output depends only
on the input paths, not on file contents. -/
theorem generate_tree_sorted_connectors :
    (∀ files : List (List String),
      generate_tree files =
        build_tree (treeFuel files)
          ((files.foldl PTree.insertPath (PTree.node [])).children) []) ∧
    (∀ (fuel : Nat) (cs : List (String × PTree)) (pref : List Char),
      List.Sorted childLE (List.insertionSort childLE cs) ∧
      List.Perm (List.insertionSort childLE cs) cs ∧
      ∃ blocks : List (List Char),
        build_tree (fuel + 1) cs pref = joinSep (chars "\n") blocks ∧
        blocks.length = (List.insertionSort childLE cs).length ∧
        ∀ i : Nat,
          blocks.get? i = ((List.insertionSort childLE cs).get? i).map fun kv =>
            pref ++
              (if i = (List.insertionSort childLE cs).length - 1
                then chars "└── " else chars "├── ") ++ kv.1.data ++
              (if kv.2.children.isEmpty then []
               else chars "\n" ++
                 build_tree fuel kv.2.children
                   (pref ++
                     (if i = (List.insertionSort childLE cs).length - 1
                       then chars "    " else chars "│   ")))) ∧
    (generate_tree [["src", "b.txt"], ["a.txt"], ["src", "a.txt"],
        ["src", "sub", "x.txt"], ["z.txt"]] =
      chars
        "├── a.txt\n├── src\n│   ├── a.txt\n│   ├── b.txt\n│   └── sub\n│       └── x.txt\n└── z.txt") ∧
    (∀ es1 es2 : List Entry, es1.map Entry.path = es2.map Entry.path →
      generate_tree (es1.map Entry.path) = generate_tree (es2.map Entry.path)) := by
  refine ⟨fun files => rfl, fun fuel cs pref => ?_, by decide, fun es1 es2 h => by rw [h]⟩
  haveI : IsTotal (String × PTree) childLE :=
    ⟨fun a b => lexLE_total a.1.data b.1.data⟩
  haveI : IsTrans (String × PTree) childLE :=
    ⟨fun _ _ _ h1 h2 => lexLE_trans h1 h2⟩
  refine ⟨List.sorted_insertionSort childLE cs, List.perm_insertionSort childLE cs,
    (List.insertionSort childLE cs).enum.map
      (fun p => joinSep (chars "\n")
        (entryBlockLines fuel (List.insertionSort childLE cs).length pref p)),
    ?_, by simp, ?_⟩
  · rw [build_tree_succ,
      joinSep_join (chars "\n") _
        (fun g hg => by
          obtain ⟨p, _, rfl⟩ := List.mem_map.mp hg
          exact entryBlockLines_ne_nil fuel _ pref p),
      List.map_map]
    rfl
  · intro i
    rw [List.get?_map, List.enum_get?]
    cases h : (List.insertionSort childLE cs).get? i
    · rfl
    · simp only [Option.map_some']
      congr 1
      rename_i kv
      rcases kv with ⟨k, t⟩
      rcases t with ⟨cc⟩
      rcases cc with _ | ⟨c, cs2⟩
      · simp [entryBlockLines, joinSep, PTree.children]
      · simp [entryBlockLines, joinSep, PTree.children, List.append_assoc]

/-- Witness for C8: two walks over equal paths with different contents
render the same tree. -/
theorem generate_tree_sorted_connectors_witness :
    generate_tree (([⟨["d", "f.txt"], true, some [1]⟩] : List Entry).map
      Entry.path) =
      generate_tree (([⟨["d", "f.txt"], true, none⟩] : List Entry).map
        Entry.path) :=
  generate_tree_sorted_connectors.2.2.2 _ _ (by decide)

end Promcat
